import Mathlib

/-!
Shallow embedding of the auction contract in `src/src/lib.rs`
(devratapuri/Auction): an English-style auction that sells
`token_amount_for_sale` of one token for bids in another token, with a
claim ledger (`claim_map`) recording refundable / payable amounts.

Modelling conventions:
* `u128` values are `Nat`s; Rust's `+`/`+=` on `u128` aborts the
  invocation on arithmetic overflow (overflow checks, as in the crate's
  test profile), modelled by `u128add : Nat → Nat → Option Nat`.
* `i64` timestamps are `Int`s.
* a `panic!` aborts the whole invocation, so every action / callback
  returns `Option (AuctionContractState × List EventGroup)`, `none`
  meaning the call was rejected and no state was committed.
* `BTreeMap<Address, TokenClaim>` is an association list; only
  `get` / `insert` / `entry(..).or_insert(..)` reach the map, and the
  embedding mirrors those, replacing in place on insert.
-/

namespace Auction

/-- `AddressType::PublicContract` discriminant (the only one the contract
compares against). -/
def publicContractType : Nat := 2

/-- `pbc_contract_common::address::Address`: an address type tag plus an
identifier. -/
structure Address where
  addressType : Nat
  identifier : Nat
  deriving DecidableEq, Repr

/-- `struct Bid { bidder: Address, amount: u128 }`. -/
structure Bid where
  bidder : Address
  amount : Nat
  deriving DecidableEq, Repr

/-- `struct TokenClaim { tokens_for_bidding: u128, tokens_for_sale: u128 }`. -/
structure TokenClaim where
  tokens_for_bidding : Nat
  tokens_for_sale : Nat
  deriving DecidableEq, Repr

/-- `type ContractStatus = u8`. -/
abbrev ContractStatus := Nat

def CREATION : ContractStatus := 0
def BIDDING : ContractStatus := 1
def ENDED : ContractStatus := 2
def CANCELLED : ContractStatus := 3

/-- `Shortname::from_u32(0x01)` — the token contract `transfer` action. -/
def token_contract_transfer : Nat := 0x01

/-- `Shortname::from_u32(0x03)` — the token contract `transfer_from` action. -/
def token_contract_transfer_from : Nat := 0x03

/-- Claim ledger: association list standing for
`BTreeMap<Address, TokenClaim>`. -/
abbrev ClaimMap := List (Address × TokenClaim)

/-- `BTreeMap::get`. -/
def mapGet : ClaimMap → Address → Option TokenClaim
  | [], _ => none
  | (k, v) :: rest, a => if k = a then some v else mapGet rest a

/-- `BTreeMap::insert`: replace the binding in place, or append a new one. -/
def mapInsert : ClaimMap → Address → TokenClaim → ClaimMap
  | [], a, v => [(a, v)]
  | (k, w) :: rest, a, v =>
    if k = a then (a, v) :: rest else (k, w) :: mapInsert rest a v

/-- `u128` addition: `some` of the mathematical sum when it fits in 128
bits, `none` (abort of the invocation) on overflow. -/
def u128add (x y : Nat) : Option Nat :=
  if x + y < 2 ^ 128 then some (x + y) else none

/-- The contract state (`#[state] struct AuctionContractState`). -/
structure AuctionContractState where
  contract_owner : Address
  start_time_millis : Int
  end_time_millis : Int
  token_amount_for_sale : Nat
  token_for_sale : Address
  token_for_bidding : Address
  highest_bidder : Bid
  reserve_price : Nat
  min_increment : Nat
  claim_map : ClaimMap
  status : ContractStatus
  deriving DecidableEq, Repr

/-- `ContractContext`: the fields the contract reads. -/
structure ContractContext where
  sender : Address
  contract_address : Address
  block_production_time : Int
  deriving DecidableEq, Repr

/-- `CallbackContext`: the contract only reads `success`. -/
structure CallbackContext where
  success : Bool
  deriving DecidableEq, Repr

/-- The two callback continuations the contract registers
(`SHORTNAME_START_CALLBACK = 0x02`, `SHORTNAME_BID_CALLBACK = 0x04`,
the latter carrying the candidate `Bid`). -/
inductive CallbackKind where
  | startCallback : CallbackKind
  | bidCallback : Bid → CallbackKind
  deriving DecidableEq, Repr

/-- A positional RPC argument of an interaction: an address or a `u128`
amount. -/
inductive RpcArg where
  | addr : Address → RpcArg
  | amt : Nat → RpcArg
  deriving DecidableEq, Repr

/-- One `.call(dest, shortname).argument(..)...done()` interaction. -/
structure Interaction where
  dest : Address
  shortname : Nat
  args : List RpcArg
  deriving DecidableEq, Repr

/-- An `EventGroup`: interactions plus an optional bound callback. -/
structure EventGroup where
  callback : Option CallbackKind
  calls : List Interaction
  deriving DecidableEq, Repr

/-- Result of an action / callback invocation; `none` is a panic (whole
invocation aborted, nothing committed). -/
abbrev InvocationResult := Option (AuctionContractState × List EventGroup)

/-- The ledger entry of `a`, an absent entry reading as zero (the value
`entry(..).or_insert(zero)` starts from). -/
def getClaim (state : AuctionContractState) (a : Address) : TokenClaim :=
  (mapGet state.claim_map a).getD ⟨0, 0⟩

/-- `AuctionContractState::add_to_claim_map`: fetch (or create as zero)
the bidder's entry and add `additional_claim` component-wise (bidding
tokens first, as the two `+=` run); aborts on `u128` overflow. -/
def add_to_claim_map (state : AuctionContractState) (bidder : Address)
    (additional_claim : TokenClaim) : Option AuctionContractState :=
  match u128add (getClaim state bidder).tokens_for_bidding
      additional_claim.tokens_for_bidding with
  | none => none
  | some b =>
    match u128add (getClaim state bidder).tokens_for_sale
        additional_claim.tokens_for_sale with
    | none => none
    | some s =>
      some { state with claim_map := mapInsert state.claim_map bidder ⟨b, s⟩ }

/-- `#[init] fn initialize`: validates the two token addresses, computes
the time window, and builds the state in status `CREATION` with the
sentinel highest bid `{ bidder: ctx.sender, amount: 0 }`. (Named
`initialize_contract` because `initialize` is a Lean keyword.) -/
def initialize_contract (ctx : ContractContext) (token_amount_for_sale : Nat)
    (token_for_sale token_for_bidding : Address)
    (reserve_price min_increment : Nat)
    (auction_duration_hours : Nat) : InvocationResult :=
  if token_for_sale.addressType ≠ publicContractType then none
  else if token_for_bidding.addressType ≠ publicContractType then none
  else
    let duration_millis : Int := (auction_duration_hours : Int) * 60 * 60 * 1000
    let end_time_millis : Int := ctx.block_production_time + duration_millis
    some
      ({ contract_owner := ctx.sender
         start_time_millis := ctx.block_production_time
         end_time_millis := end_time_millis
         token_amount_for_sale := token_amount_for_sale
         token_for_sale := token_for_sale
         token_for_bidding := token_for_bidding
         highest_bidder := { bidder := ctx.sender, amount := 0 }
         reserve_price := reserve_price
         min_increment := min_increment
         claim_map := []
         status := CREATION }, [])

/-- `#[action(shortname = 0x01)] fn start`: owner-only, status
`CREATION` only; emits one `transfer_from` pulling
`token_amount_for_sale` of the sale token from the caller into the
contract, bound to the `startCallback` continuation; the state itself is
returned unchanged. -/
def start (context : ContractContext) (state : AuctionContractState) :
    InvocationResult :=
  if context.sender ≠ state.contract_owner then none
  else if state.status ≠ CREATION then none
  else
    some (state,
      [{ callback := some CallbackKind.startCallback
         calls :=
           [{ dest := state.token_for_sale
              shortname := token_contract_transfer_from
              args := [RpcArg.addr context.sender,
                       RpcArg.addr context.contract_address,
                       RpcArg.amt state.token_amount_for_sale] }] }])

/-- `#[callback(shortname = 0x02)] fn start_callback`: aborts unless the
transfer succeeded, then sets status to `BIDDING` (no pre-status
check appears in the code). -/
def start_callback (ctx : ContractContext) (callback_ctx : CallbackContext)
    (state : AuctionContractState) : InvocationResult :=
  if callback_ctx.success = false then none
  else some ({ state with status := BIDDING }, [])

/-- `#[action(shortname = 0x03)] fn bid`: builds the candidate
`Bid { bidder: sender, amount: bid_amount }`, emits one `transfer_from`
pulling `bid_amount` of the bidding token from the caller, bound to the
`bidCallback` continuation carrying the candidate bid; no state change
and no check of status or time. -/
def bid (context : ContractContext) (state : AuctionContractState)
    (bid_amount : Nat) : InvocationResult :=
  let b : Bid := { bidder := context.sender, amount := bid_amount }
  some (state,
    [{ callback := some (CallbackKind.bidCallback b)
       calls :=
         [{ dest := state.token_for_bidding
            shortname := token_contract_transfer_from
            args := [RpcArg.addr context.sender,
                     RpcArg.addr context.contract_address,
                     RpcArg.amt bid_amount] }] }])

/-- `#[callback(shortname = 0x04)] fn bid_callback`: aborts on a failed
transfer; refunds the candidate (credit `bid.amount` to `bid.bidder`)
when the bid is not a winning bid — status not `BIDDING`, time past
`end_time_millis`, amount below `highest_bidder.amount + min_increment`
(a `u128` sum, evaluated only when the first two disjuncts are false,
short-circuiting as `||` does), or amount below `reserve_price`;
otherwise credits the previous highest bidder's amount to the previous
bidder and installs the candidate as `highest_bidder`. -/
def bid_callback (ctx : ContractContext) (callback_ctx : CallbackContext)
    (state : AuctionContractState) (bid : Bid) : InvocationResult :=
  if callback_ctx.success = false then none
  else if state.status ≠ BIDDING ∨
      ctx.block_production_time ≥ state.end_time_millis then
    (add_to_claim_map state bid.bidder ⟨bid.amount, 0⟩).map fun s => (s, [])
  else
    match u128add state.highest_bidder.amount state.min_increment with
    | none => none
    | some threshold =>
      if bid.amount < threshold ∨ bid.amount < state.reserve_price then
        (add_to_claim_map state bid.bidder ⟨bid.amount, 0⟩).map fun s => (s, [])
      else
        let prev_highest_bidder := state.highest_bidder
        (add_to_claim_map { state with highest_bidder := bid }
            prev_highest_bidder.bidder
            ⟨prev_highest_bidder.amount, 0⟩).map fun s => (s, [])

/-- `#[action(shortname = 0x05)] fn claim`: with no ledger entry for the
caller, a successful no-op; otherwise emits a `transfer` payout for each
of the entry's fields that is positive and re-inserts the entry zeroed. -/
def claim (context : ContractContext) (state : AuctionContractState) :
    InvocationResult :=
  match mapGet state.claim_map context.sender with
  | none => some (state, [])
  | some claimable =>
    let biddingCalls : List Interaction :=
      if claimable.tokens_for_bidding > 0 then
        [{ dest := state.token_for_bidding
           shortname := token_contract_transfer
           args := [RpcArg.addr context.sender,
                    RpcArg.amt claimable.tokens_for_bidding] }]
      else []
    let saleCalls : List Interaction :=
      if claimable.tokens_for_sale > 0 then
        [{ dest := state.token_for_sale
           shortname := token_contract_transfer
           args := [RpcArg.addr context.sender,
                    RpcArg.amt claimable.tokens_for_sale] }]
      else []
    some
      ({ state with
          claim_map := mapInsert state.claim_map context.sender ⟨0, 0⟩ },
        [{ callback := none, calls := biddingCalls ++ saleCalls }])

/-- `#[action(shortname = 0x06)] fn execute`: rejects before
`end_time_millis` or when status is not `BIDDING`; otherwise sets status
`ENDED`, credits the owner with `highest_bidder.amount` bidding tokens
and the highest bidder with `token_amount_for_sale` sale tokens. -/
def execute (context : ContractContext) (state : AuctionContractState) :
    InvocationResult :=
  if context.block_production_time < state.end_time_millis then none
  else if state.status ≠ BIDDING then none
  else
    let s1 := { state with status := ENDED }
    match add_to_claim_map s1 s1.contract_owner
        ⟨s1.highest_bidder.amount, 0⟩ with
    | none => none
    | some s2 =>
      match add_to_claim_map s2 s2.highest_bidder.bidder
          ⟨0, s2.token_amount_for_sale⟩ with
      | none => none
      | some s3 => some (s3, [])

/-- `#[action(shortname = 0x07)] fn cancel`: owner-only, before
`end_time_millis`, status `BIDDING` only; sets status `CANCELLED`,
credits the highest bidder with their bid amount back and the owner with
`token_amount_for_sale` sale tokens. -/
def cancel (context : ContractContext) (state : AuctionContractState) :
    InvocationResult :=
  if context.sender ≠ state.contract_owner then none
  else if context.block_production_time ≥ state.end_time_millis then none
  else if state.status ≠ BIDDING then none
  else
    let s1 := { state with status := CANCELLED }
    match add_to_claim_map s1 s1.highest_bidder.bidder
        ⟨s1.highest_bidder.amount, 0⟩ with
    | none => none
    | some s2 =>
      match add_to_claim_map s2 s2.contract_owner
          ⟨0, s2.token_amount_for_sale⟩ with
      | none => none
      | some s3 => some (s3, [])

/-- The spec's "not a winning bid" condition for a confirmed bid, as a
mathematical disjunction (over unbounded naturals): status not
`BIDDING`, past `end_time_millis`, amount below the current highest
amount plus `min_increment`, or amount below `reserve_price`. -/
def bidLoses (ctx : ContractContext) (state : AuctionContractState)
    (b : Bid) : Bool :=
  decide (state.status ≠ BIDDING) ||
    decide (state.end_time_millis ≤ ctx.block_production_time) ||
    decide (b.amount < state.highest_bidder.amount + state.min_increment) ||
    decide (b.amount < state.reserve_price)

/-- Run a sequence of confirmed-bid callbacks (each entry: the callback's
context, its verdict, and the candidate bid); `none` as soon as one
invocation aborts. -/
def run_bids (state : AuctionContractState) :
    List (ContractContext × CallbackContext × Bid) →
    Option AuctionContractState
  | [] => some state
  | (ctx, cb, b) :: rest =>
    match bid_callback ctx cb state b with
    | none => none
    | some (s, _) => run_bids s rest

/-- Total bidding-token amount currently held in the ledger. -/
def sumBidding (m : ClaimMap) : Nat :=
  (m.map fun p => p.2.tokens_for_bidding).sum

/-- The ledger-touching invocations of an auction run, used to audit
conservation of bidding-token amounts. -/
inductive Invocation where
  | bidCb : ContractContext → CallbackContext → Bid → Invocation
  | claimInv : ContractContext → Invocation
  | executeInv : ContractContext → Invocation
  | cancelInv : ContractContext → Invocation

/-- Instrumented run state: the contract state plus two audit totals —
bidding tokens withdrawn through `claim`, and the cumulative amounts of
non-winning and superseded bids. -/
structure TraceAcc where
  st : AuctionContractState
  withdrawn : Nat
  refunded : Nat
  deriving DecidableEq, Repr

/-- One audited invocation: runs the corresponding contract function and
updates the audit totals (a non-winning bid adds its own amount, a
winning bid adds the superseded previous highest amount, a `claim` moves
the caller's bidding-token entry into `withdrawn`). -/
def traceStep (acc : TraceAcc) : Invocation → Option TraceAcc
  | Invocation.bidCb ctx cb b =>
    match bid_callback ctx cb acc.st b with
    | none => none
    | some (s, _) =>
      some ⟨s, acc.withdrawn,
        acc.refunded +
          if bidLoses ctx acc.st b then b.amount
          else acc.st.highest_bidder.amount⟩
  | Invocation.claimInv ctx =>
    match claim ctx acc.st with
    | none => none
    | some (s, _) =>
      some ⟨s,
        acc.withdrawn + (getClaim acc.st ctx.sender).tokens_for_bidding,
        acc.refunded⟩
  | Invocation.executeInv ctx =>
    match execute ctx acc.st with
    | none => none
    | some (s, _) => some ⟨s, acc.withdrawn, acc.refunded⟩
  | Invocation.cancelInv ctx =>
    match cancel ctx acc.st with
    | none => none
    | some (s, _) => some ⟨s, acc.withdrawn, acc.refunded⟩

/-- Run a whole audited invocation sequence. -/
def run_trace (acc : TraceAcc) : List Invocation → Option TraceAcc
  | [] => some acc
  | i :: rest =>
    match traceStep acc i with
    | none => none
    | some acc2 => run_trace acc2 rest

/-- The bidding-token amount of the final highest bid once the auction is
settled (credited by `execute` to the owner, or by `cancel` back to the
bidder), and `0` while it is not. -/
def settledAmount (s : AuctionContractState) : Nat :=
  if s.status = ENDED ∨ s.status = CANCELLED then s.highest_bidder.amount
  else 0

/-- Concrete addresses and states used to instantiate the theorems. -/
def addrOwner : Address := ⟨2, 1⟩

def addrA : Address := ⟨2, 2⟩

def addrB : Address := ⟨2, 3⟩

def tokenSale : Address := ⟨2, 10⟩

def tokenBid : Address := ⟨2, 11⟩

def contractAddr : Address := ⟨2, 99⟩

/-- A freshly started auction (post `start_callback`): window `[0, 100)`,
1000 sale tokens, reserve 50, minimum increment 5, sentinel highest bid
`{addrOwner, 0}`, empty ledger, status `BIDDING`. -/
def baseState : AuctionContractState :=
  { contract_owner := addrOwner
    start_time_millis := 0
    end_time_millis := 100
    token_amount_for_sale := 1000
    token_for_sale := tokenSale
    token_for_bidding := tokenBid
    highest_bidder := ⟨addrOwner, 0⟩
    reserve_price := 50
    min_increment := 5
    claim_map := []
    status := BIDDING }

/-- An invocation context for `a` at time `t`. -/
def ctxAt (a : Address) (t : Int) : ContractContext := ⟨a, contractAddr, t⟩

/-- A demonstration run on `baseState`: one confirmed winning bid of 60
by `addrA`, then settlement at the closing time. -/
def demoTrace : List Invocation :=
  [Invocation.bidCb (ctxAt addrA 10) ⟨true⟩ ⟨addrA, 60⟩,
   Invocation.executeInv (ctxAt addrB 100)]

/-- The contract state `demoTrace` ends in: settled, `addrA` winning
with 60, the owner credited the 60 bidding tokens and `addrA` the 1000
sale tokens. -/
def demoFinal : AuctionContractState :=
  { baseState with
    status := ENDED,
    highest_bidder := ⟨addrA, 60⟩,
    claim_map := [(addrOwner, ⟨60, 0⟩), (addrA, ⟨0, 1000⟩)] }

/-- The merged ledger entry `add_to_claim_map` writes for `a` when both
component sums fit. -/
def addedClaim (s : AuctionContractState) (a : Address) (c : TokenClaim) :
    TokenClaim :=
  ⟨(getClaim s a).tokens_for_bidding + c.tokens_for_bidding,
   (getClaim s a).tokens_for_sale + c.tokens_for_sale⟩

theorem u128add_some {x y z : Nat} (h : u128add x y = some z) :
    z = x + y ∧ x + y < 2 ^ 128 := by
  unfold u128add at h
  by_cases hlt : x + y < 2 ^ 128
  · rw [if_pos hlt] at h
    cases h
    exact ⟨rfl, hlt⟩
  · rw [if_neg hlt] at h
    cases h

theorem u128add_eq_some {x y : Nat} (h : x + y < 2 ^ 128) :
    u128add x y = some (x + y) := by
  unfold u128add
  rw [if_pos h]

theorem u128add_eq_none {x y : Nat} (h : 2 ^ 128 ≤ x + y) :
    u128add x y = none := by
  unfold u128add
  rw [if_neg (Nat.not_lt.mpr h)]

theorem mapGet_mapInsert_self (m : ClaimMap) (a : Address) (v : TokenClaim) :
    mapGet (mapInsert m a v) a = some v := by
  induction m with
  | nil => simp [mapInsert, mapGet]
  | cons p rest ih =>
    obtain ⟨k, w⟩ := p
    by_cases hk : k = a
    · simp [mapInsert, mapGet, hk]
    · simp [mapInsert, mapGet, hk, ih]

theorem mapGet_mapInsert_ne (m : ClaimMap) (a x : Address) (v : TokenClaim)
    (hx : x ≠ a) : mapGet (mapInsert m a v) x = mapGet m x := by
  induction m with
  | nil => simp [mapInsert, mapGet, Ne.symm hx]
  | cons p rest ih =>
    obtain ⟨k, w⟩ := p
    by_cases hk : k = a
    · subst hk
      simp [mapInsert, mapGet, Ne.symm hx]
    · simp [mapInsert, mapGet, hk, ih]

theorem mapInsert_self {m : ClaimMap} {a : Address} {v : TokenClaim}
    (h : mapGet m a = some v) : mapInsert m a v = m := by
  induction m with
  | nil => simp [mapGet] at h
  | cons p rest ih =>
    obtain ⟨k, w⟩ := p
    by_cases hk : k = a
    · subst hk
      simp [mapGet] at h
      simp [mapInsert, h]
    · simp [mapGet, hk] at h
      simp [mapInsert, hk, ih h]

theorem sumBidding_mapInsert (m : ClaimMap) (a : Address) (v : TokenClaim) :
    sumBidding (mapInsert m a v) +
        ((mapGet m a).getD ⟨0, 0⟩).tokens_for_bidding =
      sumBidding m + v.tokens_for_bidding := by
  induction m with
  | nil => simp [mapInsert, mapGet, sumBidding]
  | cons p rest ih =>
    obtain ⟨k, w⟩ := p
    by_cases hk : k = a
    · subst hk
      simp [mapInsert, mapGet, sumBidding]
      omega
    · simp [mapInsert, mapGet, sumBidding, hk] at ih ⊢
      omega

theorem add_to_claim_map_some_eq {s s' : AuctionContractState}
    {a : Address} {c : TokenClaim} (h : add_to_claim_map s a c = some s') :
    (getClaim s a).tokens_for_bidding + c.tokens_for_bidding < 2 ^ 128 ∧
    (getClaim s a).tokens_for_sale + c.tokens_for_sale < 2 ^ 128 ∧
    s' = { s with claim_map := mapInsert s.claim_map a (addedClaim s a c) } := by
  unfold add_to_claim_map at h
  cases hb : u128add (getClaim s a).tokens_for_bidding c.tokens_for_bidding with
  | none => rw [hb] at h; cases h
  | some b =>
    rw [hb] at h
    cases hs : u128add (getClaim s a).tokens_for_sale c.tokens_for_sale with
    | none => rw [hs] at h; cases h
    | some t =>
      rw [hs] at h
      obtain ⟨hbv, hblt⟩ := u128add_some hb
      obtain ⟨htv, htlt⟩ := u128add_some hs
      subst hbv
      subst htv
      cases h
      exact ⟨hblt, htlt, rfl⟩

theorem add_to_claim_map_eq_some {s : AuctionContractState}
    {a : Address} {c : TokenClaim}
    (hb : (getClaim s a).tokens_for_bidding + c.tokens_for_bidding < 2 ^ 128)
    (hs : (getClaim s a).tokens_for_sale + c.tokens_for_sale < 2 ^ 128) :
    add_to_claim_map s a c =
      some { s with claim_map := mapInsert s.claim_map a (addedClaim s a c) } := by
  unfold add_to_claim_map
  rw [u128add_eq_some hb, u128add_eq_some hs]
  rfl

theorem add_to_claim_map_none_of_overflow {s : AuctionContractState}
    {a : Address} {c : TokenClaim}
    (h : 2 ^ 128 ≤ (getClaim s a).tokens_for_bidding + c.tokens_for_bidding ∨
      2 ^ 128 ≤ (getClaim s a).tokens_for_sale + c.tokens_for_sale) :
    add_to_claim_map s a c = none := by
  unfold add_to_claim_map
  rcases h with h | h
  · rw [u128add_eq_none h]
  · cases hb : u128add (getClaim s a).tokens_for_bidding c.tokens_for_bidding
    · rfl
    · rw [u128add_eq_none h]

theorem getClaim_add_self {s s' : AuctionContractState}
    {a : Address} {c : TokenClaim} (h : add_to_claim_map s a c = some s') :
    getClaim s' a = addedClaim s a c := by
  obtain ⟨-, -, hs'⟩ := add_to_claim_map_some_eq h
  subst hs'
  simp [getClaim, mapGet_mapInsert_self]

theorem getClaim_add_ne {s s' : AuctionContractState}
    {a x : Address} {c : TokenClaim} (h : add_to_claim_map s a c = some s')
    (hx : x ≠ a) : getClaim s' x = getClaim s x := by
  obtain ⟨-, -, hs'⟩ := add_to_claim_map_some_eq h
  subst hs'
  simp [getClaim, mapGet_mapInsert_ne _ _ _ _ hx]

theorem mapGet_add_ne {s s' : AuctionContractState}
    {a x : Address} {c : TokenClaim} (h : add_to_claim_map s a c = some s')
    (hx : x ≠ a) : mapGet s'.claim_map x = mapGet s.claim_map x := by
  obtain ⟨-, -, hs'⟩ := add_to_claim_map_some_eq h
  subst hs'
  show mapGet (mapInsert s.claim_map a (addedClaim s a c)) x = mapGet s.claim_map x
  exact mapGet_mapInsert_ne _ _ _ _ hx

theorem add_frame {s s' : AuctionContractState} {a : Address}
    {c : TokenClaim} (h : add_to_claim_map s a c = some s') :
    s'.contract_owner = s.contract_owner ∧ s'.status = s.status ∧
    s'.highest_bidder = s.highest_bidder ∧
    s'.end_time_millis = s.end_time_millis ∧
    s'.token_amount_for_sale = s.token_amount_for_sale ∧
    s'.reserve_price = s.reserve_price ∧
    s'.min_increment = s.min_increment ∧
    s'.token_for_sale = s.token_for_sale ∧
    s'.token_for_bidding = s.token_for_bidding := by
  obtain ⟨-, -, hs'⟩ := add_to_claim_map_some_eq h
  subst hs'
  exact ⟨rfl, rfl, rfl, rfl, rfl, rfl, rfl, rfl, rfl⟩

theorem sumBidding_add {s s' : AuctionContractState} {a : Address}
    {c : TokenClaim} (h : add_to_claim_map s a c = some s') :
    sumBidding s'.claim_map = sumBidding s.claim_map + c.tokens_for_bidding := by
  obtain ⟨-, -, hs'⟩ := add_to_claim_map_some_eq h
  subst hs'
  show sumBidding (mapInsert s.claim_map a (addedClaim s a c)) =
    sumBidding s.claim_map + c.tokens_for_bidding
  have hins := sumBidding_mapInsert s.claim_map a (addedClaim s a c)
  have hget : ((mapGet s.claim_map a).getD ⟨0, 0⟩).tokens_for_bidding =
      (getClaim s a).tokens_for_bidding := rfl
  have hadd : (addedClaim s a c).tokens_for_bidding =
      (getClaim s a).tokens_for_bidding + c.tokens_for_bidding := rfl
  omega

theorem bidLoses_false_iff {ctx : ContractContext} {s : AuctionContractState}
    {b : Bid} : bidLoses ctx s b = false ↔
      s.status = BIDDING ∧ ctx.block_production_time < s.end_time_millis ∧
      s.highest_bidder.amount + s.min_increment ≤ b.amount ∧
      s.reserve_price ≤ b.amount := by
  unfold bidLoses
  simp [not_le, not_lt, and_assoc]

theorem bid_callback_some_cases {ctx : ContractContext} {cb : CallbackContext}
    {s : AuctionContractState} {b : Bid}
    {r : AuctionContractState × List EventGroup}
    (h : bid_callback ctx cb s b = some r) :
    cb.success = true ∧ r.2 = [] ∧
      ((bidLoses ctx s b = true ∧
          add_to_claim_map s b.bidder ⟨b.amount, 0⟩ = some r.1) ∨
        (bidLoses ctx s b = false ∧
          add_to_claim_map { s with highest_bidder := b }
            s.highest_bidder.bidder ⟨s.highest_bidder.amount, 0⟩ = some r.1)) := by
  unfold bid_callback at h
  by_cases hsucc : cb.success = false
  · rw [if_pos hsucc] at h
    cases h
  · rw [if_neg hsucc] at h
    have hsucc' : cb.success = true := by
      cases hcb : cb.success
      · exact absurd hcb hsucc
      · rfl
    by_cases h1 : s.status ≠ BIDDING ∨
      ctx.block_production_time ≥ s.end_time_millis
    · rw [if_pos h1] at h
      rcases Option.map_eq_some'.mp h with ⟨s1, hadd, hr⟩
      subst hr
      refine ⟨hsucc', rfl, Or.inl ⟨?_, hadd⟩⟩
      rcases h1 with h1 | h1 <;> simp [bidLoses, h1]
    · rw [if_neg h1] at h
      push_neg at h1
      cases hthr : u128add s.highest_bidder.amount s.min_increment with
      | none =>
        rw [hthr] at h
        cases h
      | some t =>
        rw [hthr] at h
        dsimp only at h
        obtain ⟨ht, hlt⟩ := u128add_some hthr
        subst ht
        by_cases h2 : b.amount < s.highest_bidder.amount + s.min_increment ∨
          b.amount < s.reserve_price
        · rw [if_pos h2] at h
          rcases Option.map_eq_some'.mp h with ⟨s1, hadd, hr⟩
          subst hr
          refine ⟨hsucc', rfl, Or.inl ⟨?_, hadd⟩⟩
          rcases h2 with h2 | h2 <;> simp [bidLoses, h2]
        · rw [if_neg h2] at h
          rcases Option.map_eq_some'.mp h with ⟨s1, hadd, hr⟩
          subst hr
          push_neg at h2
          refine ⟨hsucc', rfl, Or.inr ⟨?_, hadd⟩⟩
          exact bidLoses_false_iff.mpr ⟨h1.1, h1.2, h2.1, h2.2⟩

theorem bid_callback_eq_lose {ctx : ContractContext} {cb : CallbackContext}
    {s : AuctionContractState} {b : Bid}
    (hsucc : cb.success = true)
    (hl : bidLoses ctx s b = true)
    (hthr : s.highest_bidder.amount + s.min_increment < 2 ^ 128) :
    bid_callback ctx cb s b =
      (add_to_claim_map s b.bidder ⟨b.amount, 0⟩).map fun t => (t, []) := by
  unfold bid_callback
  rw [if_neg (by simp [hsucc])]
  by_cases h1 : s.status ≠ BIDDING ∨
    ctx.block_production_time ≥ s.end_time_millis
  · rw [if_pos h1]
  · rw [if_neg h1]
    push_neg at h1
    rw [u128add_eq_some hthr]
    dsimp only
    have h2 : b.amount < s.highest_bidder.amount + s.min_increment ∨
        b.amount < s.reserve_price := by
      by_contra hno
      push_neg at hno
      have hfalse := bidLoses_false_iff.mpr ⟨h1.1, h1.2, hno.1, hno.2⟩
      rw [hfalse] at hl
      exact Bool.noConfusion hl
    rw [if_pos h2]

theorem bid_callback_eq_win {ctx : ContractContext} {cb : CallbackContext}
    {s : AuctionContractState} {b : Bid}
    (hsucc : cb.success = true)
    (hl : bidLoses ctx s b = false)
    (hbamt : b.amount < 2 ^ 128) :
    bid_callback ctx cb s b =
      (add_to_claim_map { s with highest_bidder := b } s.highest_bidder.bidder
        ⟨s.highest_bidder.amount, 0⟩).map fun t => (t, []) := by
  obtain ⟨hstat, htime, hinc, hres⟩ := bidLoses_false_iff.mp hl
  unfold bid_callback
  rw [if_neg (by simp [hsucc])]
  rw [if_neg (by push_neg; exact ⟨hstat, htime⟩)]
  rw [u128add_eq_some (lt_of_le_of_lt hinc hbamt)]
  dsimp only
  rw [if_neg (by push_neg; exact ⟨hinc, hres⟩)]

theorem bid_callback_highest_step {ctx : ContractContext}
    {cb : CallbackContext} {s : AuctionContractState} {b : Bid}
    {r : AuctionContractState × List EventGroup}
    (h : bid_callback ctx cb s b = some r) :
    r.1.highest_bidder = s.highest_bidder ∨
      (r.1.highest_bidder = b ∧ s.status = BIDDING ∧
        ctx.block_production_time < s.end_time_millis ∧
        s.highest_bidder.amount + s.min_increment ≤ b.amount ∧
        s.reserve_price ≤ b.amount) := by
  obtain ⟨-, -, hcases⟩ := bid_callback_some_cases h
  rcases hcases with ⟨-, hadd⟩ | ⟨hwin, hadd⟩
  · exact Or.inl (add_frame hadd).2.2.1
  · obtain ⟨hstat, htime, hinc, hres⟩ := bidLoses_false_iff.mp hwin
    have hhb := (add_frame hadd).2.2.1
    exact Or.inr ⟨hhb, hstat, htime, hinc, hres⟩

theorem run_bids_monotone {steps : List (ContractContext × CallbackContext × Bid)} :
    ∀ {s s' : AuctionContractState}, run_bids s steps = some s' →
      s.highest_bidder.amount ≤ s'.highest_bidder.amount := by
  induction steps with
  | nil =>
    intro s s' h
    cases h
    exact le_refl _
  | cons p rest ih =>
    intro s s' h
    obtain ⟨ctx, cb, b⟩ := p
    unfold run_bids at h
    cases hcb : bid_callback ctx cb s b with
    | none =>
      rw [hcb] at h
      cases h
    | some r =>
      rw [hcb] at h
      have tail := ih h
      rcases bid_callback_highest_step hcb with heq | ⟨heq, -, -, hge, -⟩
      · rw [heq] at tail
        exact tail
      · rw [heq] at tail
        exact le_trans (le_trans (Nat.le_add_right _ _) hge) tail

theorem execute_some_guards {ctx : ContractContext} {s : AuctionContractState}
    {r : AuctionContractState × List EventGroup} (h : execute ctx s = some r) :
    s.end_time_millis ≤ ctx.block_production_time ∧ s.status = BIDDING := by
  unfold execute at h
  by_cases h1 : ctx.block_production_time < s.end_time_millis
  · rw [if_pos h1] at h
    cases h
  · rw [if_neg h1] at h
    by_cases h2 : s.status ≠ BIDDING
    · rw [if_pos h2] at h
      cases h
    · push_neg at h2
      exact ⟨not_lt.mp h1, h2⟩

theorem execute_none_of_early {ctx : ContractContext} {s : AuctionContractState}
    (h : ctx.block_production_time < s.end_time_millis) :
    execute ctx s = none := by
  unfold execute
  rw [if_pos h]

theorem execute_none_of_status {ctx : ContractContext} {s : AuctionContractState}
    (h : s.status ≠ BIDDING) : execute ctx s = none := by
  unfold execute
  by_cases h1 : ctx.block_production_time < s.end_time_millis
  · rw [if_pos h1]
  · rw [if_neg h1, if_pos h]

theorem execute_some_adds {ctx : ContractContext} {s : AuctionContractState}
    {r : AuctionContractState × List EventGroup} (h : execute ctx s = some r) :
    r.2 = [] ∧
    ∃ s2, add_to_claim_map { s with status := ENDED } s.contract_owner
        ⟨s.highest_bidder.amount, 0⟩ = some s2 ∧
      add_to_claim_map s2 s2.highest_bidder.bidder
        ⟨0, s2.token_amount_for_sale⟩ = some r.1 := by
  unfold execute at h
  by_cases h1 : ctx.block_production_time < s.end_time_millis
  · rw [if_pos h1] at h
    cases h
  · rw [if_neg h1] at h
    by_cases h2 : s.status ≠ BIDDING
    · rw [if_pos h2] at h
      cases h
    · rw [if_neg h2] at h
      dsimp only at h
      cases ha1 : add_to_claim_map { s with status := ENDED } s.contract_owner
          ⟨s.highest_bidder.amount, 0⟩ with
      | none =>
        rw [ha1] at h
        cases h
      | some s2 =>
        rw [ha1] at h
        dsimp only at h
        cases ha2 : add_to_claim_map s2 s2.highest_bidder.bidder
            ⟨0, s2.token_amount_for_sale⟩ with
        | none =>
          rw [ha2] at h
          cases h
        | some s3 =>
          rw [ha2] at h
          cases h
          exact ⟨rfl, s2, rfl, ha2⟩

theorem execute_eq_some {ctx : ContractContext} {s : AuctionContractState}
    (ht : s.end_time_millis ≤ ctx.block_production_time)
    (hst : s.status = BIDDING)
    (h1 : (getClaim s s.contract_owner).tokens_for_bidding +
      s.highest_bidder.amount < 2 ^ 128)
    (h2 : (getClaim s s.contract_owner).tokens_for_sale < 2 ^ 128)
    (h3 : (getClaim s s.highest_bidder.bidder).tokens_for_bidding < 2 ^ 128)
    (h4 : (getClaim s s.highest_bidder.bidder).tokens_for_sale +
      s.token_amount_for_sale < 2 ^ 128) :
    ∃ s', execute ctx s = some (s', []) ∧ s'.status = ENDED ∧
      s'.highest_bidder = s.highest_bidder ∧
      s'.contract_owner = s.contract_owner ∧
      s'.end_time_millis = s.end_time_millis ∧
      s'.token_amount_for_sale = s.token_amount_for_sale ∧
      (getClaim s' s.contract_owner).tokens_for_bidding =
        (getClaim s s.contract_owner).tokens_for_bidding +
          s.highest_bidder.amount ∧
      (getClaim s' s.highest_bidder.bidder).tokens_for_sale =
        (getClaim s s.highest_bidder.bidder).tokens_for_sale +
          s.token_amount_for_sale ∧
      (∀ x, x ≠ s.contract_owner → x ≠ s.highest_bidder.bidder →
        getClaim s' x = getClaim s x) := by
  have hb1 : (getClaim { s with status := ENDED } s.contract_owner).tokens_for_bidding +
      (⟨s.highest_bidder.amount, 0⟩ : TokenClaim).tokens_for_bidding < 2 ^ 128 := h1
  have hb2 : (getClaim { s with status := ENDED } s.contract_owner).tokens_for_sale +
      (⟨s.highest_bidder.amount, 0⟩ : TokenClaim).tokens_for_sale < 2 ^ 128 := h2
  obtain ⟨s2, ha1⟩ : ∃ s2, add_to_claim_map { s with status := ENDED }
      s.contract_owner ⟨s.highest_bidder.amount, 0⟩ = some s2 :=
    ⟨_, add_to_claim_map_eq_some hb1 hb2⟩
  have hf1 := add_frame ha1
  have hown2 : s2.contract_owner = s.contract_owner := hf1.1
  have hstat2 : s2.status = ENDED := hf1.2.1
  have hhb2 : s2.highest_bidder = s.highest_bidder := hf1.2.2.1
  have hend2 : s2.end_time_millis = s.end_time_millis := hf1.2.2.2.1
  have hamt2 : s2.token_amount_for_sale = s.token_amount_for_sale := hf1.2.2.2.2.1
  have hself1 := getClaim_add_self ha1
  have hown_b : (getClaim s2 s.contract_owner).tokens_for_bidding =
      (getClaim s s.contract_owner).tokens_for_bidding + s.highest_bidder.amount := by
    rw [hself1]
    rfl
  have hown_s : (getClaim s2 s.contract_owner).tokens_for_sale =
      (getClaim s s.contract_owner).tokens_for_sale := by
    rw [hself1]
    rfl
  have hne1 : ∀ x, x ≠ s.contract_owner → getClaim s2 x = getClaim s x := by
    intro x hx
    have h' := getClaim_add_ne ha1 hx
    exact h'
  have hb3 : (getClaim s2 s2.highest_bidder.bidder).tokens_for_bidding +
      (⟨0, s2.token_amount_for_sale⟩ : TokenClaim).tokens_for_bidding < 2 ^ 128 := by
    show (getClaim s2 s2.highest_bidder.bidder).tokens_for_bidding + 0 < 2 ^ 128
    rw [hhb2, Nat.add_zero]
    by_cases hx : s.highest_bidder.bidder = s.contract_owner
    · rw [hx, hown_b]
      exact h1
    · rw [hne1 _ hx]
      exact h3
  have hb4 : (getClaim s2 s2.highest_bidder.bidder).tokens_for_sale +
      (⟨0, s2.token_amount_for_sale⟩ : TokenClaim).tokens_for_sale < 2 ^ 128 := by
    show (getClaim s2 s2.highest_bidder.bidder).tokens_for_sale +
      s2.token_amount_for_sale < 2 ^ 128
    rw [hhb2, hamt2]
    by_cases hx : s.highest_bidder.bidder = s.contract_owner
    · rw [hx, hown_s]
      rw [hx] at h4
      exact h4
    · rw [hne1 _ hx]
      exact h4
  obtain ⟨s3, ha2⟩ : ∃ s3, add_to_claim_map s2 s2.highest_bidder.bidder
      ⟨0, s2.token_amount_for_sale⟩ = some s3 :=
    ⟨_, add_to_claim_map_eq_some hb3 hb4⟩
  have hf2 := add_frame ha2
  have hstat3 : s3.status = ENDED := by rw [hf2.2.1, hstat2]
  have hhb3 : s3.highest_bidder = s.highest_bidder := by rw [hf2.2.2.1, hhb2]
  have hown3 : s3.contract_owner = s.contract_owner := by rw [hf2.1, hown2]
  have hend3 : s3.end_time_millis = s.end_time_millis := by rw [hf2.2.2.2.1, hend2]
  have hamt3 : s3.token_amount_for_sale = s.token_amount_for_sale := by
    rw [hf2.2.2.2.2.1, hamt2]
  have hself2 := getClaim_add_self ha2
  rw [hhb2] at hself2
  have hbid_b : (getClaim s3 s.highest_bidder.bidder).tokens_for_bidding =
      (getClaim s2 s.highest_bidder.bidder).tokens_for_bidding := by
    rw [hself2]
    rfl
  have hbid_s : (getClaim s3 s.highest_bidder.bidder).tokens_for_sale =
      (getClaim s2 s.highest_bidder.bidder).tokens_for_sale +
        s.token_amount_for_sale := by
    rw [hself2]
    show (getClaim s2 s.highest_bidder.bidder).tokens_for_sale +
        s2.token_amount_for_sale =
      (getClaim s2 s.highest_bidder.bidder).tokens_for_sale +
        s.token_amount_for_sale
    rw [hamt2]
  have hne2 : ∀ x, x ≠ s.highest_bidder.bidder → getClaim s3 x = getClaim s2 x := by
    intro x hx
    have hx' : x ≠ s2.highest_bidder.bidder := by
      rw [hhb2]
      exact hx
    exact getClaim_add_ne ha2 hx'
  have hexec : execute ctx s = some (s3, []) := by
    unfold execute
    rw [if_neg (not_lt.mpr ht)]
    rw [if_neg (by simp [hst])]
    dsimp only
    rw [ha1]
    dsimp only
    rw [ha2]
  refine ⟨s3, hexec, hstat3, hhb3, hown3, hend3, hamt3, ?_, ?_, ?_⟩
  · by_cases hx : s.contract_owner = s.highest_bidder.bidder
    · rw [hx, hbid_b]
      rw [← hx, hown_b, hx]
    · rw [hne2 _ hx, hown_b]
  · rw [hbid_s]
    by_cases hx : s.highest_bidder.bidder = s.contract_owner
    · rw [hx, hown_s]
    · rw [hne1 _ hx]
  · intro x hxo hxb
    rw [hne2 _ hxb, hne1 _ hxo]

theorem cancel_some_guards {ctx : ContractContext} {s : AuctionContractState}
    {r : AuctionContractState × List EventGroup} (h : cancel ctx s = some r) :
    ctx.sender = s.contract_owner ∧
    ctx.block_production_time < s.end_time_millis ∧ s.status = BIDDING := by
  unfold cancel at h
  by_cases h1 : ctx.sender ≠ s.contract_owner
  · rw [if_pos h1] at h
    cases h
  · rw [if_neg h1] at h
    by_cases h2 : ctx.block_production_time ≥ s.end_time_millis
    · rw [if_pos h2] at h
      cases h
    · rw [if_neg h2] at h
      by_cases h3 : s.status ≠ BIDDING
      · rw [if_pos h3] at h
        cases h
      · push_neg at h1 h3
        exact ⟨h1, not_le.mp h2, h3⟩

theorem cancel_none_of_sender {ctx : ContractContext}
    {s : AuctionContractState} (h : ctx.sender ≠ s.contract_owner) :
    cancel ctx s = none := by
  unfold cancel
  rw [if_pos h]

theorem cancel_none_of_late {ctx : ContractContext}
    {s : AuctionContractState}
    (h : s.end_time_millis ≤ ctx.block_production_time) :
    cancel ctx s = none := by
  unfold cancel
  by_cases h1 : ctx.sender ≠ s.contract_owner
  · rw [if_pos h1]
  · rw [if_neg h1, if_pos h]

theorem cancel_none_of_status {ctx : ContractContext}
    {s : AuctionContractState} (h : s.status ≠ BIDDING) :
    cancel ctx s = none := by
  unfold cancel
  by_cases h1 : ctx.sender ≠ s.contract_owner
  · rw [if_pos h1]
  · rw [if_neg h1]
    by_cases h2 : ctx.block_production_time ≥ s.end_time_millis
    · rw [if_pos h2]
    · rw [if_neg h2, if_pos h]

theorem cancel_eq_some {ctx : ContractContext} {s : AuctionContractState}
    (hsend : ctx.sender = s.contract_owner)
    (ht : ctx.block_production_time < s.end_time_millis)
    (hst : s.status = BIDDING)
    (h1 : (getClaim s s.highest_bidder.bidder).tokens_for_bidding +
      s.highest_bidder.amount < 2 ^ 128)
    (h2 : (getClaim s s.highest_bidder.bidder).tokens_for_sale < 2 ^ 128)
    (h3 : (getClaim s s.contract_owner).tokens_for_bidding < 2 ^ 128)
    (h4 : (getClaim s s.contract_owner).tokens_for_sale +
      s.token_amount_for_sale < 2 ^ 128) :
    ∃ s', cancel ctx s = some (s', []) ∧ s'.status = CANCELLED ∧
      s'.highest_bidder = s.highest_bidder ∧
      s'.contract_owner = s.contract_owner ∧
      s'.end_time_millis = s.end_time_millis ∧
      s'.token_amount_for_sale = s.token_amount_for_sale ∧
      (getClaim s' s.highest_bidder.bidder).tokens_for_bidding =
        (getClaim s s.highest_bidder.bidder).tokens_for_bidding +
          s.highest_bidder.amount ∧
      (getClaim s' s.contract_owner).tokens_for_sale =
        (getClaim s s.contract_owner).tokens_for_sale +
          s.token_amount_for_sale ∧
      (∀ x, x ≠ s.contract_owner → x ≠ s.highest_bidder.bidder →
        getClaim s' x = getClaim s x) := by
  have hb1 : (getClaim { s with status := CANCELLED }
        s.highest_bidder.bidder).tokens_for_bidding +
      (⟨s.highest_bidder.amount, 0⟩ : TokenClaim).tokens_for_bidding < 2 ^ 128 := h1
  have hb2 : (getClaim { s with status := CANCELLED }
        s.highest_bidder.bidder).tokens_for_sale +
      (⟨s.highest_bidder.amount, 0⟩ : TokenClaim).tokens_for_sale < 2 ^ 128 := h2
  obtain ⟨s2, ha1⟩ : ∃ s2, add_to_claim_map { s with status := CANCELLED }
      s.highest_bidder.bidder ⟨s.highest_bidder.amount, 0⟩ = some s2 :=
    ⟨_, add_to_claim_map_eq_some hb1 hb2⟩
  have hf1 := add_frame ha1
  have hown2 : s2.contract_owner = s.contract_owner := hf1.1
  have hstat2 : s2.status = CANCELLED := hf1.2.1
  have hhb2 : s2.highest_bidder = s.highest_bidder := hf1.2.2.1
  have hend2 : s2.end_time_millis = s.end_time_millis := hf1.2.2.2.1
  have hamt2 : s2.token_amount_for_sale = s.token_amount_for_sale := hf1.2.2.2.2.1
  have hself1 := getClaim_add_self ha1
  have hbid_b : (getClaim s2 s.highest_bidder.bidder).tokens_for_bidding =
      (getClaim s s.highest_bidder.bidder).tokens_for_bidding +
        s.highest_bidder.amount := by
    rw [hself1]
    rfl
  have hbid_s : (getClaim s2 s.highest_bidder.bidder).tokens_for_sale =
      (getClaim s s.highest_bidder.bidder).tokens_for_sale := by
    rw [hself1]
    rfl
  have hne1 : ∀ x, x ≠ s.highest_bidder.bidder → getClaim s2 x = getClaim s x := by
    intro x hx
    have h' := getClaim_add_ne ha1 hx
    exact h'
  have hb3 : (getClaim s2 s2.contract_owner).tokens_for_bidding +
      (⟨0, s2.token_amount_for_sale⟩ : TokenClaim).tokens_for_bidding < 2 ^ 128 := by
    show (getClaim s2 s2.contract_owner).tokens_for_bidding + 0 < 2 ^ 128
    rw [hown2, Nat.add_zero]
    by_cases hx : s.contract_owner = s.highest_bidder.bidder
    · rw [hx, hbid_b]
      exact h1
    · rw [hne1 _ hx]
      exact h3
  have hb4 : (getClaim s2 s2.contract_owner).tokens_for_sale +
      (⟨0, s2.token_amount_for_sale⟩ : TokenClaim).tokens_for_sale < 2 ^ 128 := by
    show (getClaim s2 s2.contract_owner).tokens_for_sale +
      s2.token_amount_for_sale < 2 ^ 128
    rw [hown2, hamt2]
    by_cases hx : s.contract_owner = s.highest_bidder.bidder
    · rw [hx, hbid_s]
      rw [hx] at h4
      exact h4
    · rw [hne1 _ hx]
      exact h4
  obtain ⟨s3, ha2⟩ : ∃ s3, add_to_claim_map s2 s2.contract_owner
      ⟨0, s2.token_amount_for_sale⟩ = some s3 :=
    ⟨_, add_to_claim_map_eq_some hb3 hb4⟩
  have hf2 := add_frame ha2
  have hstat3 : s3.status = CANCELLED := by rw [hf2.2.1, hstat2]
  have hhb3 : s3.highest_bidder = s.highest_bidder := by rw [hf2.2.2.1, hhb2]
  have hown3 : s3.contract_owner = s.contract_owner := by rw [hf2.1, hown2]
  have hend3 : s3.end_time_millis = s.end_time_millis := by rw [hf2.2.2.2.1, hend2]
  have hamt3 : s3.token_amount_for_sale = s.token_amount_for_sale := by
    rw [hf2.2.2.2.2.1, hamt2]
  have hself2 := getClaim_add_self ha2
  rw [hown2] at hself2
  have hown_b3 : (getClaim s3 s.contract_owner).tokens_for_bidding =
      (getClaim s2 s.contract_owner).tokens_for_bidding := by
    rw [hself2]
    rfl
  have hown_s3 : (getClaim s3 s.contract_owner).tokens_for_sale =
      (getClaim s2 s.contract_owner).tokens_for_sale +
        s.token_amount_for_sale := by
    rw [hself2]
    show (getClaim s2 s.contract_owner).tokens_for_sale +
        s2.token_amount_for_sale =
      (getClaim s2 s.contract_owner).tokens_for_sale + s.token_amount_for_sale
    rw [hamt2]
  have hne2 : ∀ x, x ≠ s.contract_owner → getClaim s3 x = getClaim s2 x := by
    intro x hx
    have hx' : x ≠ s2.contract_owner := by
      rw [hown2]
      exact hx
    exact getClaim_add_ne ha2 hx'
  have hcancel : cancel ctx s = some (s3, []) := by
    unfold cancel
    rw [if_neg (by push_neg; exact hsend)]
    rw [if_neg (not_le.mpr ht)]
    rw [if_neg (by simp [hst])]
    dsimp only
    rw [ha1]
    dsimp only
    rw [ha2]
  refine ⟨s3, hcancel, hstat3, hhb3, hown3, hend3, hamt3, ?_, ?_, ?_⟩
  · by_cases hx : s.highest_bidder.bidder = s.contract_owner
    · rw [hx, hown_b3]
      rw [← hx, hbid_b, hx]
    · rw [hne2 _ hx, hbid_b]
  · rw [hown_s3]
    by_cases hx : s.contract_owner = s.highest_bidder.bidder
    · rw [hx, hbid_s]
    · rw [hne1 _ hx]
  · intro x hxo hxb
    rw [hne2 _ hxo, hne1 _ hxb]

theorem cancel_some_adds {ctx : ContractContext} {s : AuctionContractState}
    {r : AuctionContractState × List EventGroup} (h : cancel ctx s = some r) :
    r.2 = [] ∧
    ∃ s2, add_to_claim_map { s with status := CANCELLED }
        s.highest_bidder.bidder ⟨s.highest_bidder.amount, 0⟩ = some s2 ∧
      add_to_claim_map s2 s2.contract_owner
        ⟨0, s2.token_amount_for_sale⟩ = some r.1 := by
  unfold cancel at h
  by_cases h1 : ctx.sender ≠ s.contract_owner
  · rw [if_pos h1] at h
    cases h
  · rw [if_neg h1] at h
    by_cases h2 : ctx.block_production_time ≥ s.end_time_millis
    · rw [if_pos h2] at h
      cases h
    · rw [if_neg h2] at h
      by_cases h3 : s.status ≠ BIDDING
      · rw [if_pos h3] at h
        cases h
      · rw [if_neg h3] at h
        dsimp only at h
        cases ha1 : add_to_claim_map { s with status := CANCELLED }
            s.highest_bidder.bidder ⟨s.highest_bidder.amount, 0⟩ with
        | none =>
          rw [ha1] at h
          cases h
        | some s2 =>
          rw [ha1] at h
          dsimp only at h
          cases ha2 : add_to_claim_map s2 s2.contract_owner
              ⟨0, s2.token_amount_for_sale⟩ with
          | none =>
            rw [ha2] at h
            cases h
          | some s3 =>
            rw [ha2] at h
            cases h
            exact ⟨rfl, s2, rfl, ha2⟩

theorem settledAmount_BIDDING {s : AuctionContractState}
    (h : s.status = BIDDING) : settledAmount s = 0 := by
  unfold settledAmount
  rw [h]
  simp [BIDDING, ENDED, CANCELLED]

theorem settledAmount_congr {s t : AuctionContractState}
    (hst : s.status = t.status) (hhb : s.highest_bidder = t.highest_bidder) :
    settledAmount s = settledAmount t := by
  unfold settledAmount
  rw [hst, hhb]

theorem traceStep_preserves {acc acc' : TraceAcc} {i : Invocation}
    (h : traceStep acc i = some acc')
    (hinv : sumBidding acc.st.claim_map + acc.withdrawn =
      acc.refunded + settledAmount acc.st) :
    sumBidding acc'.st.claim_map + acc'.withdrawn =
      acc'.refunded + settledAmount acc'.st := by
  cases i with
  | bidCb ctx cb b =>
    unfold traceStep at h
    dsimp only at h
    cases hcb : bid_callback ctx cb acc.st b with
    | none =>
      rw [hcb] at h
      cases h
    | some r =>
      obtain ⟨s1, evs⟩ := r
      rw [hcb] at h
      dsimp only at h
      cases h
      obtain ⟨-, -, hcases⟩ := bid_callback_some_cases hcb
      rcases hcases with ⟨hl, hadd⟩ | ⟨hl, hadd⟩
      · have hsum : sumBidding s1.claim_map =
            sumBidding acc.st.claim_map + b.amount := sumBidding_add hadd
        have hf := add_frame hadd
        have hsettled : settledAmount s1 = settledAmount acc.st :=
          settledAmount_congr hf.2.1 hf.2.2.1
        rw [hl]
        dsimp only
        rw [if_pos rfl]
        omega
      · have hsum : sumBidding s1.claim_map =
            sumBidding acc.st.claim_map + acc.st.highest_bidder.amount :=
          sumBidding_add hadd
        have hf := add_frame hadd
        have hstat1 : s1.status = acc.st.status := hf.2.1
        have hstatB : acc.st.status = BIDDING := (bidLoses_false_iff.mp hl).1
        have hsettled1 : settledAmount s1 = 0 :=
          settledAmount_BIDDING (by rw [hstat1, hstatB])
        have hsettled0 : settledAmount acc.st = 0 := settledAmount_BIDDING hstatB
        rw [hl]
        dsimp only
        rw [if_neg (by simp)]
        omega
  | claimInv ctx =>
    unfold traceStep at h
    dsimp only at h
    cases hc : claim ctx acc.st with
    | none =>
      rw [hc] at h
      cases h
    | some r =>
      obtain ⟨s1, evs⟩ := r
      rw [hc] at h
      dsimp only at h
      cases h
      cases hv : mapGet acc.st.claim_map ctx.sender with
      | none =>
        unfold claim at hc
        rw [hv] at hc
        cases hc
        have hdelta : (getClaim acc.st ctx.sender).tokens_for_bidding = 0 := by
          unfold getClaim
          rw [hv]
          rfl
        dsimp only
        omega
      | some v =>
        unfold claim at hc
        rw [hv] at hc
        dsimp only at hc
        cases hc
        have hdelta : (getClaim acc.st ctx.sender).tokens_for_bidding =
            v.tokens_for_bidding := by
          unfold getClaim
          rw [hv]
          rfl
        have hsum := sumBidding_mapInsert acc.st.claim_map ctx.sender ⟨0, 0⟩
        rw [hv] at hsum
        have hsum' : sumBidding (mapInsert acc.st.claim_map ctx.sender ⟨0, 0⟩) +
            v.tokens_for_bidding = sumBidding acc.st.claim_map := by
          simpa using hsum
        have hsettled : settledAmount { acc.st with
            claim_map := mapInsert acc.st.claim_map ctx.sender ⟨0, 0⟩ } =
            settledAmount acc.st := settledAmount_congr rfl rfl
        show sumBidding (mapInsert acc.st.claim_map ctx.sender ⟨0, 0⟩) +
            (acc.withdrawn + (getClaim acc.st ctx.sender).tokens_for_bidding) =
          acc.refunded + settledAmount { acc.st with
            claim_map := mapInsert acc.st.claim_map ctx.sender ⟨0, 0⟩ }
        rw [hsettled, hdelta]
        omega
  | executeInv ctx =>
    unfold traceStep at h
    dsimp only at h
    cases he : execute ctx acc.st with
    | none =>
      rw [he] at h
      cases h
    | some r =>
      obtain ⟨s1, evs⟩ := r
      rw [he] at h
      dsimp only at h
      cases h
      obtain ⟨ht, hstat⟩ := execute_some_guards he
      obtain ⟨-, s2, ha1, ha2⟩ := execute_some_adds he
      have hsum1 : sumBidding s2.claim_map =
          sumBidding acc.st.claim_map + acc.st.highest_bidder.amount :=
        sumBidding_add ha1
      have hsum2 : sumBidding s1.claim_map = sumBidding s2.claim_map + 0 :=
        sumBidding_add ha2
      have hf1 := add_frame ha1
      have hf2 := add_frame ha2
      have hstat2 : s2.status = ENDED := hf1.2.1
      have hstat1 : s1.status = ENDED := by
        have h12 : s1.status = s2.status := hf2.2.1
        rw [h12, hstat2]
      have hhb2 : s2.highest_bidder = acc.st.highest_bidder := hf1.2.2.1
      have hhb1 : s1.highest_bidder = acc.st.highest_bidder := by
        have h12 : s1.highest_bidder = s2.highest_bidder := hf2.2.2.1
        rw [h12, hhb2]
      have hsettled0 : settledAmount acc.st = 0 := settledAmount_BIDDING hstat
      have hsettled1 : settledAmount s1 = acc.st.highest_bidder.amount := by
        unfold settledAmount
        rw [hstat1, hhb1]
        simp
      dsimp only
      omega
  | cancelInv ctx =>
    unfold traceStep at h
    dsimp only at h
    cases he : cancel ctx acc.st with
    | none =>
      rw [he] at h
      cases h
    | some r =>
      obtain ⟨s1, evs⟩ := r
      rw [he] at h
      dsimp only at h
      cases h
      obtain ⟨hsend, ht, hstat⟩ := cancel_some_guards he
      obtain ⟨-, s2, ha1, ha2⟩ := cancel_some_adds he
      have hsum1 : sumBidding s2.claim_map =
          sumBidding acc.st.claim_map + acc.st.highest_bidder.amount :=
        sumBidding_add ha1
      have hsum2 : sumBidding s1.claim_map = sumBidding s2.claim_map + 0 :=
        sumBidding_add ha2
      have hf1 := add_frame ha1
      have hf2 := add_frame ha2
      have hstat2 : s2.status = CANCELLED := hf1.2.1
      have hstat1 : s1.status = CANCELLED := by
        have h12 : s1.status = s2.status := hf2.2.1
        rw [h12, hstat2]
      have hhb2 : s2.highest_bidder = acc.st.highest_bidder := hf1.2.2.1
      have hhb1 : s1.highest_bidder = acc.st.highest_bidder := by
        have h12 : s1.highest_bidder = s2.highest_bidder := hf2.2.2.1
        rw [h12, hhb2]
      have hsettled0 : settledAmount acc.st = 0 := settledAmount_BIDDING hstat
      have hsettled1 : settledAmount s1 = acc.st.highest_bidder.amount := by
        unfold settledAmount
        rw [hstat1, hhb1]
        simp
      dsimp only
      omega

theorem run_trace_preserves {tr : List Invocation} :
    ∀ {acc acc' : TraceAcc}, run_trace acc tr = some acc' →
      sumBidding acc.st.claim_map + acc.withdrawn =
        acc.refunded + settledAmount acc.st →
      sumBidding acc'.st.claim_map + acc'.withdrawn =
        acc'.refunded + settledAmount acc'.st := by
  induction tr with
  | nil =>
    intro acc acc' h hinv
    cases h
    exact hinv
  | cons i rest ih =>
    intro acc acc' h hinv
    unfold run_trace at h
    cases hs : traceStep acc i with
    | none =>
      rw [hs] at h
      cases h
    | some acc2 =>
      rw [hs] at h
      exact ih h (traceStep_preserves hs hinv)

theorem start_some_guards {ctx : ContractContext} {s : AuctionContractState}
    {r : AuctionContractState × List EventGroup} (h : start ctx s = some r) :
    ctx.sender = s.contract_owner ∧ s.status = CREATION := by
  unfold start at h
  by_cases h1 : ctx.sender ≠ s.contract_owner
  · rw [if_pos h1] at h
    cases h
  · rw [if_neg h1] at h
    by_cases h2 : s.status ≠ CREATION
    · rw [if_pos h2] at h
      cases h
    · push_neg at h1 h2
      exact ⟨h1, h2⟩

theorem start_eq_some {ctx : ContractContext} {s : AuctionContractState}
    (h1 : ctx.sender = s.contract_owner) (h2 : s.status = CREATION) :
    start ctx s =
      some (s,
        [{ callback := some CallbackKind.startCallback,
           calls := [{ dest := s.token_for_sale,
                       shortname := token_contract_transfer_from,
                       args := [RpcArg.addr ctx.sender,
                                RpcArg.addr ctx.contract_address,
                                RpcArg.amt s.token_amount_for_sale] }] }]) := by
  unfold start
  rw [if_neg (by push_neg; exact h1), if_neg (by push_neg; exact h2)]

theorem start_callback_of_success {ctx : ContractContext}
    {cb : CallbackContext} (s : AuctionContractState)
    (h : cb.success = true) :
    start_callback ctx cb s = some ({ s with status := BIDDING }, []) := by
  unfold start_callback
  rw [if_neg (by simp [h])]

theorem bid_eq (ctx : ContractContext) (s : AuctionContractState)
    (amt : Nat) :
    bid ctx s amt =
      some (s,
        [{ callback := some (CallbackKind.bidCallback ⟨ctx.sender, amt⟩),
           calls := [{ dest := s.token_for_bidding,
                       shortname := token_contract_transfer_from,
                       args := [RpcArg.addr ctx.sender,
                                RpcArg.addr ctx.contract_address,
                                RpcArg.amt amt] }] }]) := rfl

/-- C3: merging an accrual into a ledger entry whose component-wise
`u128` sums would exceed the `u128` maximum aborts the invocation
(`add_to_claim_map` returns `none`) rather than silently wrapping, and a
successful merge always stores the exact mathematical sums, both below
`2 ^ 128` — never a modular (wrapped) result in either field. -/
theorem claim_merge_no_silent_wrap :
    ∀ (s : AuctionContractState) (a : Address) (c : TokenClaim),
      ((2 ^ 128 ≤ (getClaim s a).tokens_for_bidding + c.tokens_for_bidding ∨
        2 ^ 128 ≤ (getClaim s a).tokens_for_sale + c.tokens_for_sale) →
        add_to_claim_map s a c = none) ∧
      (∀ s', add_to_claim_map s a c = some s' →
        (getClaim s' a).tokens_for_bidding =
          (getClaim s a).tokens_for_bidding + c.tokens_for_bidding ∧
        (getClaim s' a).tokens_for_sale =
          (getClaim s a).tokens_for_sale + c.tokens_for_sale ∧
        (getClaim s a).tokens_for_bidding + c.tokens_for_bidding < 2 ^ 128 ∧
        (getClaim s a).tokens_for_sale + c.tokens_for_sale < 2 ^ 128) := by
  intro s a c
  constructor
  · exact add_to_claim_map_none_of_overflow
  · intro s' h
    obtain ⟨hb, hs, -⟩ := add_to_claim_map_some_eq h
    have hself := getClaim_add_self h
    refine ⟨?_, ?_, hb, hs⟩
    · rw [hself]
      rfl
    · rw [hself]
      rfl

/-- Witness for C3: a ledger entry holding `2 ^ 128 - 1` bidding tokens
merged with one more bidding token aborts. -/
theorem claim_merge_no_silent_wrap_witness :
    add_to_claim_map
      { baseState with claim_map := [(addrA, ⟨2 ^ 128 - 1, 0⟩)] }
      addrA ⟨1, 0⟩ = none := by
  refine (claim_merge_no_silent_wrap
    { baseState with claim_map := [(addrA, ⟨2 ^ 128 - 1, 0⟩)] }
    addrA ⟨1, 0⟩).1 (Or.inl ?_)
  decide

/-- C9: `start` succeeds exactly when the caller is the contract owner
and the status is Creation; on success the state is returned completely
unchanged (status stays Creation) and one `transfer_from` request is
emitted, pulling `token_amount_for_sale` of the sale token from the
caller into the contract, bound to the `startCallback` continuation. -/
theorem start_spec :
    ∀ (ctx : ContractContext) (s : AuctionContractState),
      ((start ctx s).isSome ↔
        ctx.sender = s.contract_owner ∧ s.status = CREATION) ∧
      (∀ r, start ctx s = some r → r.1 = s ∧
        r.2 = [{ callback := some CallbackKind.startCallback,
                 calls := [{ dest := s.token_for_sale,
                             shortname := token_contract_transfer_from,
                             args := [RpcArg.addr ctx.sender,
                                      RpcArg.addr ctx.contract_address,
                                      RpcArg.amt s.token_amount_for_sale] }] }]) := by
  intro ctx s
  constructor
  · constructor
    · intro h
      obtain ⟨r, hr⟩ := Option.isSome_iff_exists.mp h
      exact start_some_guards hr
    · rintro ⟨h1, h2⟩
      rw [start_eq_some h1 h2]
      rfl
  · intro r hr
    obtain ⟨h1, h2⟩ := start_some_guards hr
    rw [start_eq_some h1 h2] at hr
    cases hr
    exact ⟨rfl, rfl⟩

/-- Witness for C9 at a concrete state in status Creation. -/
theorem start_spec_witness :
    (start (ctxAt addrOwner 0) { baseState with status := CREATION }).isSome := by
  exact (start_spec (ctxAt addrOwner 0)
    { baseState with status := CREATION }).1.mpr ⟨rfl, rfl⟩

/-- C2 (amended): the actions `start`, `execute` and `cancel` check
their exact required status (and, for `execute` / `cancel`, the time
window; for `start` / `cancel`, the caller) before mutating and reject
otherwise, and a confirmed bid replaces `highest_bidder` only in status
Bidding before `end_time_millis`; but `start_callback` promotes the
status to Bidding on any successful verdict without checking the
pre-callback status, and `bid` emits its transfer request whatever the
status is. -/
theorem status_guard_spec :
    (∀ (ctx : ContractContext) (s : AuctionContractState)
        (r : AuctionContractState × List EventGroup), start ctx s = some r →
      ctx.sender = s.contract_owner ∧ s.status = CREATION) ∧
    (∀ (ctx : ContractContext) (s : AuctionContractState)
        (r : AuctionContractState × List EventGroup), execute ctx s = some r →
      s.end_time_millis ≤ ctx.block_production_time ∧ s.status = BIDDING) ∧
    (∀ (ctx : ContractContext) (s : AuctionContractState)
        (r : AuctionContractState × List EventGroup), cancel ctx s = some r →
      ctx.sender = s.contract_owner ∧
        ctx.block_production_time < s.end_time_millis ∧ s.status = BIDDING) ∧
    (∀ (ctx : ContractContext) (cb : CallbackContext)
        (s : AuctionContractState) (b : Bid)
        (r : AuctionContractState × List EventGroup),
      bid_callback ctx cb s b = some r →
      r.1.highest_bidder ≠ s.highest_bidder →
        s.status = BIDDING ∧ ctx.block_production_time < s.end_time_millis) ∧
    (∀ (ctx : ContractContext) (cb : CallbackContext)
        (s : AuctionContractState), cb.success = true →
      start_callback ctx cb s = some ({ s with status := BIDDING }, [])) ∧
    (∀ (ctx : ContractContext) (s : AuctionContractState) (amt : Nat),
      bid ctx s amt =
        some (s,
          [{ callback := some (CallbackKind.bidCallback ⟨ctx.sender, amt⟩),
             calls := [{ dest := s.token_for_bidding,
                         shortname := token_contract_transfer_from,
                         args := [RpcArg.addr ctx.sender,
                                  RpcArg.addr ctx.contract_address,
                                  RpcArg.amt amt] }] }])) := by
  refine ⟨?_, ?_, ?_, ?_, ?_, ?_⟩
  · intro ctx s r h
    exact start_some_guards h
  · intro ctx s r h
    exact execute_some_guards h
  · intro ctx s r h
    exact cancel_some_guards h
  · intro ctx cb s b r h hne
    rcases bid_callback_highest_step h with heq | ⟨-, hstat, htime, -, -⟩
    · exact absurd heq hne
    · exact ⟨hstat, htime⟩
  · intro ctx cb s h
    exact start_callback_of_success s h
  · intro ctx s amt
    exact bid_eq ctx s amt

/-- Witness for C2 (amended) at concrete inputs: `cancel` by a non-owner
rejects, and a successful `start_callback` promotes a Creation-status
state to Bidding. -/
theorem status_guard_spec_witness :
    start_callback (ctxAt addrA 5) ⟨true⟩
        { baseState with status := CREATION } =
      some ({ baseState with status := BIDDING }, []) := by
  exact status_guard_spec.2.2.2.2.1 (ctxAt addrA 5) ⟨true⟩
    { baseState with status := CREATION } rfl

/-- Counterexample for C2 as stated: `start_callback` with a success
verdict on a state whose pre-callback status is Ended (not Creation)
does not reject — it promotes the status straight to Bidding. -/
theorem start_callback_promotes_from_ended_cex :
    start_callback (ctxAt addrA 5) ⟨true⟩ { baseState with status := ENDED } =
      some ({ baseState with status := BIDDING }, []) ∧
    decide (({ baseState with status := ENDED } :
      AuctionContractState).status = CREATION) = false := by
  exact ⟨rfl, by decide⟩

/-- C1 (amended): for a confirmed bid (success verdict, all amounts in
`u128` range), if any of the four losing conditions holds — status not
Bidding, time past `end_time_millis`, amount below
`highest_bidder.amount + min_increment`, amount below `reserve_price` —
the candidate's full amount is credited to the candidate's claim and
`highest_bidder` is untouched; otherwise the previous highest bidder's
amount is credited to the previous bidder's claim and `highest_bidder`
is replaced by the candidate. When `min_increment ≥ 1` an exact-equal
bid always loses and is refunded (with `min_increment = 0` an
exact-equal bid wins instead). -/
theorem bid_callback_spec :
    ∀ (ctx : ContractContext) (cb : CallbackContext)
      (s : AuctionContractState) (b : Bid),
      cb.success = true →
      b.amount < 2 ^ 128 →
      s.highest_bidder.amount + s.min_increment < 2 ^ 128 →
      (getClaim s b.bidder).tokens_for_bidding + b.amount < 2 ^ 128 →
      (getClaim s b.bidder).tokens_for_sale < 2 ^ 128 →
      (getClaim s s.highest_bidder.bidder).tokens_for_bidding +
        s.highest_bidder.amount < 2 ^ 128 →
      (getClaim s s.highest_bidder.bidder).tokens_for_sale < 2 ^ 128 →
      (bidLoses ctx s b = true →
        ∃ s', bid_callback ctx cb s b = some (s', []) ∧
          s'.highest_bidder = s.highest_bidder ∧ s'.status = s.status ∧
          (getClaim s' b.bidder).tokens_for_bidding =
            (getClaim s b.bidder).tokens_for_bidding + b.amount ∧
          (getClaim s' b.bidder).tokens_for_sale =
            (getClaim s b.bidder).tokens_for_sale ∧
          (∀ x, x ≠ b.bidder → getClaim s' x = getClaim s x)) ∧
      (bidLoses ctx s b = false →
        ∃ s', bid_callback ctx cb s b = some (s', []) ∧
          s'.highest_bidder = b ∧ s'.status = s.status ∧
          (getClaim s' s.highest_bidder.bidder).tokens_for_bidding =
            (getClaim s s.highest_bidder.bidder).tokens_for_bidding +
              s.highest_bidder.amount ∧
          (getClaim s' s.highest_bidder.bidder).tokens_for_sale =
            (getClaim s s.highest_bidder.bidder).tokens_for_sale ∧
          (∀ x, x ≠ s.highest_bidder.bidder → getClaim s' x = getClaim s x)) ∧
      (1 ≤ s.min_increment → b.amount = s.highest_bidder.amount →
        bidLoses ctx s b = true) := by
  intro ctx cb s b hsucc hbamt hthr h4 h5 h6 h7
  refine ⟨?_, ?_, ?_⟩
  · intro hl
    have hb1 : (getClaim s b.bidder).tokens_for_bidding +
        (⟨b.amount, 0⟩ : TokenClaim).tokens_for_bidding < 2 ^ 128 := h4
    have hb2 : (getClaim s b.bidder).tokens_for_sale +
        (⟨b.amount, 0⟩ : TokenClaim).tokens_for_sale < 2 ^ 128 := h5
    obtain ⟨s', hadd⟩ : ∃ s',
        add_to_claim_map s b.bidder ⟨b.amount, 0⟩ = some s' :=
      ⟨_, add_to_claim_map_eq_some hb1 hb2⟩
    have hf := add_frame hadd
    have hself := getClaim_add_self hadd
    refine ⟨s', ?_, hf.2.2.1, hf.2.1, ?_, ?_, ?_⟩
    · rw [bid_callback_eq_lose hsucc hl hthr, hadd]
      rfl
    · rw [hself]
      rfl
    · rw [hself]
      rfl
    · intro x hx
      exact getClaim_add_ne hadd hx
  · intro hl
    have hb1 : (getClaim { s with highest_bidder := b }
          s.highest_bidder.bidder).tokens_for_bidding +
        (⟨s.highest_bidder.amount, 0⟩ : TokenClaim).tokens_for_bidding <
          2 ^ 128 := h6
    have hb2 : (getClaim { s with highest_bidder := b }
          s.highest_bidder.bidder).tokens_for_sale +
        (⟨s.highest_bidder.amount, 0⟩ : TokenClaim).tokens_for_sale <
          2 ^ 128 := h7
    obtain ⟨s', hadd⟩ : ∃ s', add_to_claim_map { s with highest_bidder := b }
        s.highest_bidder.bidder ⟨s.highest_bidder.amount, 0⟩ = some s' :=
      ⟨_, add_to_claim_map_eq_some hb1 hb2⟩
    have hf := add_frame hadd
    have hhb : s'.highest_bidder = b := hf.2.2.1
    have hstat : s'.status = s.status := hf.2.1
    have hself := getClaim_add_self hadd
    refine ⟨s', ?_, hhb, hstat, ?_, ?_, ?_⟩
    · rw [bid_callback_eq_win hsucc hl hbamt, hadd]
      rfl
    · rw [hself]
      rfl
    · rw [hself]
      rfl
    · intro x hx
      have h' := getClaim_add_ne hadd hx
      exact h'
  · intro hmin heq
    have hlt : b.amount < s.highest_bidder.amount + s.min_increment := by
      omega
    simp [bidLoses, hlt]

/-- Witness for C1 (amended): a concrete winning confirmed bid. -/
theorem bid_callback_spec_witness :
    (bid_callback (ctxAt addrA 10) ⟨true⟩ baseState ⟨addrA, 60⟩).isSome := by
  obtain ⟨-, hwin, -⟩ := bid_callback_spec (ctxAt addrA 10) ⟨true⟩ baseState
    ⟨addrA, 60⟩ rfl (by decide) (by decide) (by decide) (by decide)
    (by decide) (by decide)
  obtain ⟨s', hcb, -⟩ := hwin (by decide)
  rw [hcb]
  rfl

/-- Counterexample for C1 as stated: with `min_increment = 0` an
exact-equal confirmed bid (candidate amount equal to the current highest
amount) wins — `highest_bidder` is replaced by the candidate and nothing
is credited to the candidate's claim — contradicting "an exact-equal or
insufficient-increment bid always loses and is refunded". -/
theorem bid_callback_equal_bid_wins_cex :
    (bid_callback (ctxAt addrA 10) ⟨true⟩
        { baseState with min_increment := 0, highest_bidder := ⟨addrB, 60⟩ }
        ⟨addrA, 60⟩).map
      (fun r => (r.1.highest_bidder, getClaim r.1 addrA)) =
      some (⟨addrA, 60⟩, ⟨0, 0⟩) := by
  decide

/-- C4: over any sequence of successful `bid_callback` invocations the
highest bid amount is non-decreasing, and every promotion (replacement
of `highest_bidder`) installs the candidate and satisfies
`amount ≥ previous.amount + min_increment` and
`amount ≥ reserve_price`. -/
theorem highest_bid_monotone_spec :
    (∀ (s : AuctionContractState)
        (steps : List (ContractContext × CallbackContext × Bid))
        (s' : AuctionContractState), run_bids s steps = some s' →
      s.highest_bidder.amount ≤ s'.highest_bidder.amount) ∧
    (∀ (ctx : ContractContext) (cb : CallbackContext)
        (s : AuctionContractState) (b : Bid)
        (r : AuctionContractState × List EventGroup),
      bid_callback ctx cb s b = some r →
      r.1.highest_bidder ≠ s.highest_bidder →
        r.1.highest_bidder = b ∧
        s.highest_bidder.amount + s.min_increment ≤ b.amount ∧
        s.reserve_price ≤ b.amount) := by
  constructor
  · intro s steps s' h
    exact run_bids_monotone h
  · intro ctx cb s b r h hne
    rcases bid_callback_highest_step h with heq | ⟨heq, -, -, hinc, hres⟩
    · exact absurd heq hne
    · exact ⟨heq, hinc, hres⟩

/-- Witness for C4: a concrete two-bid sequence (60 then 70). -/
theorem highest_bid_monotone_spec_witness :
    baseState.highest_bidder.amount ≤
      ({ baseState with
          highest_bidder := ⟨addrB, 70⟩,
          claim_map := [(addrOwner, ⟨0, 0⟩), (addrA, ⟨60, 0⟩)] } :
        AuctionContractState).highest_bidder.amount := by
  exact highest_bid_monotone_spec.1 baseState
    [(ctxAt addrA 10, ⟨true⟩, ⟨addrA, 60⟩),
     (ctxAt addrB 20, ⟨true⟩, ⟨addrB, 70⟩)]
    { baseState with
      highest_bidder := ⟨addrB, 70⟩,
      claim_map := [(addrOwner, ⟨0, 0⟩), (addrA, ⟨60, 0⟩)] }
    (by decide)

/-- C5: under in-range ledger amounts, `execute` succeeds iff
`now ≥ end_time` and status is Bidding — the condition never mentions
the caller, so anyone may settle; on success the status becomes Ended,
the owner's claim gains `highest_bidder.amount` bidding tokens, the
highest bidder's claim gains `token_amount_for_sale` sale tokens, no
events are emitted, and any later `execute` on the resulting state
(status Ended) rejects. -/
theorem execute_spec :
    ∀ (ctx : ContractContext) (s : AuctionContractState),
      (getClaim s s.contract_owner).tokens_for_bidding +
        s.highest_bidder.amount < 2 ^ 128 →
      (getClaim s s.contract_owner).tokens_for_sale < 2 ^ 128 →
      (getClaim s s.highest_bidder.bidder).tokens_for_bidding < 2 ^ 128 →
      (getClaim s s.highest_bidder.bidder).tokens_for_sale +
        s.token_amount_for_sale < 2 ^ 128 →
      ((execute ctx s).isSome ↔
        s.end_time_millis ≤ ctx.block_production_time ∧ s.status = BIDDING) ∧
      (∀ s' evs, execute ctx s = some (s', evs) → evs = [] ∧
        s'.status = ENDED ∧
        (getClaim s' s.contract_owner).tokens_for_bidding =
          (getClaim s s.contract_owner).tokens_for_bidding +
            s.highest_bidder.amount ∧
        (getClaim s' s.highest_bidder.bidder).tokens_for_sale =
          (getClaim s s.highest_bidder.bidder).tokens_for_sale +
            s.token_amount_for_sale ∧
        ∀ ctx2 : ContractContext, execute ctx2 s' = none) := by
  intro ctx s h1 h2 h3 h4
  constructor
  · constructor
    · intro h
      obtain ⟨r, hr⟩ := Option.isSome_iff_exists.mp h
      exact execute_some_guards hr
    · rintro ⟨ht, hst⟩
      obtain ⟨s', hex, -⟩ := execute_eq_some ht hst h1 h2 h3 h4
      rw [hex]
      rfl
  · intro s' evs h
    obtain ⟨ht, hst⟩ := execute_some_guards h
    obtain ⟨s'', hex, hstat, hhb, hown, hend, hamt, hb, hs, hother⟩ :=
      execute_eq_some ht hst h1 h2 h3 h4
    rw [h] at hex
    have hpair := Option.some.inj hex
    have hs'' : s' = s'' := congrArg Prod.fst hpair
    have hevs : evs = ([] : List EventGroup) := congrArg Prod.snd hpair
    subst hs''
    refine ⟨hevs, hstat, hb, hs, ?_⟩
    intro ctx2
    refine execute_none_of_status ?_
    rw [hstat]
    decide

/-- Witness for C5: a concrete settlement at the closing time. -/
theorem execute_spec_witness :
    (execute (ctxAt addrB 100)
      { baseState with highest_bidder := ⟨addrA, 60⟩ }).isSome := by
  exact (execute_spec (ctxAt addrB 100)
    { baseState with highest_bidder := ⟨addrA, 60⟩ }
    (by decide) (by decide) (by decide) (by decide)).1.mpr
    ⟨by decide, rfl⟩

/-- C6: under in-range ledger amounts, `cancel` succeeds iff the caller
is the contract owner, the time is before `end_time_millis`, and the
status is Bidding; on success the status becomes Cancelled, the current
highest bidder's claim gains `highest_bidder.amount` bidding tokens, and
the owner's claim gains `token_amount_for_sale` sale tokens. -/
theorem cancel_spec :
    ∀ (ctx : ContractContext) (s : AuctionContractState),
      (getClaim s s.highest_bidder.bidder).tokens_for_bidding +
        s.highest_bidder.amount < 2 ^ 128 →
      (getClaim s s.highest_bidder.bidder).tokens_for_sale < 2 ^ 128 →
      (getClaim s s.contract_owner).tokens_for_bidding < 2 ^ 128 →
      (getClaim s s.contract_owner).tokens_for_sale +
        s.token_amount_for_sale < 2 ^ 128 →
      ((cancel ctx s).isSome ↔
        ctx.sender = s.contract_owner ∧
        ctx.block_production_time < s.end_time_millis ∧
        s.status = BIDDING) ∧
      (∀ s' evs, cancel ctx s = some (s', evs) → evs = [] ∧
        s'.status = CANCELLED ∧
        (getClaim s' s.highest_bidder.bidder).tokens_for_bidding =
          (getClaim s s.highest_bidder.bidder).tokens_for_bidding +
            s.highest_bidder.amount ∧
        (getClaim s' s.contract_owner).tokens_for_sale =
          (getClaim s s.contract_owner).tokens_for_sale +
            s.token_amount_for_sale) := by
  intro ctx s h1 h2 h3 h4
  constructor
  · constructor
    · intro h
      obtain ⟨r, hr⟩ := Option.isSome_iff_exists.mp h
      exact cancel_some_guards hr
    · rintro ⟨hsend, ht, hst⟩
      obtain ⟨s', hc, -⟩ := cancel_eq_some hsend ht hst h1 h2 h3 h4
      rw [hc]
      rfl
  · intro s' evs h
    obtain ⟨hsend, ht, hst⟩ := cancel_some_guards h
    obtain ⟨s'', hc, hstat, hhb, hown, hend, hamt, hb, hs, hother⟩ :=
      cancel_eq_some hsend ht hst h1 h2 h3 h4
    rw [h] at hc
    have hpair := Option.some.inj hc
    have hs'' : s' = s'' := congrArg Prod.fst hpair
    have hevs : evs = ([] : List EventGroup) := congrArg Prod.snd hpair
    subst hs''
    exact ⟨hevs, hstat, hb, hs⟩

/-- Witness for C6: the owner cancels a running auction. -/
theorem cancel_spec_witness :
    (cancel (ctxAt addrOwner 10)
      { baseState with highest_bidder := ⟨addrA, 60⟩ }).isSome := by
  exact (cancel_spec (ctxAt addrOwner 10)
    { baseState with highest_bidder := ⟨addrA, 60⟩ }
    (by decide) (by decide) (by decide) (by decide)).1.mpr
    ⟨rfl, by decide, rfl⟩

/-- C10: when `highest_bidder` is still the creation-time sentinel
`{contract_owner, 0}` (no bid was ever confirmed as winning), a
permitted `execute` credits the owner 0 bidding tokens (the entry's
bidding field is unchanged) and the full `token_amount_for_sale` in sale
tokens — the sale tokens return to the owner even though the reserve
price was never met. -/
theorem execute_sentinel_spec :
    ∀ (ctx : ContractContext) (s : AuctionContractState),
      s.highest_bidder = ⟨s.contract_owner, 0⟩ →
      s.end_time_millis ≤ ctx.block_production_time →
      s.status = BIDDING →
      (getClaim s s.contract_owner).tokens_for_bidding < 2 ^ 128 →
      (getClaim s s.contract_owner).tokens_for_sale +
        s.token_amount_for_sale < 2 ^ 128 →
      ∃ s', execute ctx s = some (s', []) ∧ s'.status = ENDED ∧
        (getClaim s' s.contract_owner).tokens_for_bidding =
          (getClaim s s.contract_owner).tokens_for_bidding ∧
        (getClaim s' s.contract_owner).tokens_for_sale =
          (getClaim s s.contract_owner).tokens_for_sale +
            s.token_amount_for_sale := by
  intro ctx s hhb ht hst hc1 hc2
  have h1 : (getClaim s s.contract_owner).tokens_for_bidding +
      s.highest_bidder.amount < 2 ^ 128 := by
    rw [hhb]
    simpa using hc1
  have h2 : (getClaim s s.contract_owner).tokens_for_sale < 2 ^ 128 := by
    omega
  have h3 : (getClaim s s.highest_bidder.bidder).tokens_for_bidding <
      2 ^ 128 := by
    rw [hhb]
    exact hc1
  have h4 : (getClaim s s.highest_bidder.bidder).tokens_for_sale +
      s.token_amount_for_sale < 2 ^ 128 := by
    rw [hhb]
    exact hc2
  obtain ⟨s', hex, hstat, hhb', hown, hend, hamt, hb, hs, hother⟩ :=
    execute_eq_some ht hst h1 h2 h3 h4
  refine ⟨s', hex, hstat, ?_, ?_⟩
  · rw [hb, hhb]
    simp
  · have hs' : (getClaim s' (⟨s.contract_owner, 0⟩ : Bid).bidder).tokens_for_sale =
        (getClaim s (⟨s.contract_owner, 0⟩ : Bid).bidder).tokens_for_sale +
          s.token_amount_for_sale := by
      rw [← hhb]
      exact hs
    exact hs'

/-- Witness for C10: executing the fresh auction (sentinel highest bid)
at the closing time. -/
theorem execute_sentinel_spec_witness :
    (execute (ctxAt addrB 100) baseState).isSome := by
  obtain ⟨s', hex, -⟩ := execute_sentinel_spec (ctxAt addrB 100) baseState
    rfl (by decide) rfl (by decide) (by decide)
  rw [hex]
  rfl

/-- C7: `claim` with no ledger entry for the caller is a successful
no-op; with an entry it zeroes exactly that entry, emits one payout call
per positive field, leaves every other entry and every other state field
unchanged, and is idempotent — an immediate second `claim` by the same
caller succeeds, emits no payout call, and leaves the state unchanged. -/
theorem claim_action_spec :
    ∀ (ctx : ContractContext) (s : AuctionContractState),
      (mapGet s.claim_map ctx.sender = none → claim ctx s = some (s, [])) ∧
      (∀ v, mapGet s.claim_map ctx.sender = some v →
        claim ctx s = some
          ({ s with claim_map := mapInsert s.claim_map ctx.sender ⟨0, 0⟩ },
           [{ callback := none,
              calls := ((if v.tokens_for_bidding > 0 then
                  [{ dest := s.token_for_bidding,
                     shortname := token_contract_transfer,
                     args := [RpcArg.addr ctx.sender,
                              RpcArg.amt v.tokens_for_bidding] }]
                else []) ++
                (if v.tokens_for_sale > 0 then
                  [{ dest := s.token_for_sale,
                     shortname := token_contract_transfer,
                     args := [RpcArg.addr ctx.sender,
                              RpcArg.amt v.tokens_for_sale] }]
                else [])) }])) ∧
      (∀ s' evs, claim ctx s = some (s', evs) →
        getClaim s' ctx.sender = ⟨0, 0⟩ ∧
        (∀ x, x ≠ ctx.sender → mapGet s'.claim_map x = mapGet s.claim_map x) ∧
        s'.contract_owner = s.contract_owner ∧
        s'.start_time_millis = s.start_time_millis ∧
        s'.end_time_millis = s.end_time_millis ∧
        s'.token_amount_for_sale = s.token_amount_for_sale ∧
        s'.token_for_sale = s.token_for_sale ∧
        s'.token_for_bidding = s.token_for_bidding ∧
        s'.highest_bidder = s.highest_bidder ∧
        s'.reserve_price = s.reserve_price ∧
        s'.min_increment = s.min_increment ∧
        s'.status = s.status ∧
        (∃ evs2, claim ctx s' = some (s', evs2) ∧
          ∀ eg, eg ∈ evs2 → eg.calls = [])) := by
  intro ctx s
  refine ⟨?_, ?_, ?_⟩
  · intro h
    unfold claim
    rw [h]
  · intro v hv
    unfold claim
    rw [hv]
  · intro s' evs h
    cases hv : mapGet s.claim_map ctx.sender with
    | none =>
      unfold claim at h
      rw [hv] at h
      cases h
      refine ⟨?_, fun x hx => rfl, rfl, rfl, rfl, rfl, rfl, rfl, rfl, rfl,
        rfl, rfl, [], ?_, ?_⟩
      · unfold getClaim
        rw [hv]
        rfl
      · unfold claim
        rw [hv]
      · intro eg heg
        cases heg
    | some v =>
      unfold claim at h
      rw [hv] at h
      dsimp only at h
      cases h
      have hgot : mapGet (mapInsert s.claim_map ctx.sender ⟨0, 0⟩)
          ctx.sender = some ⟨0, 0⟩ := mapGet_mapInsert_self _ _ _
      have hins : mapInsert (mapInsert s.claim_map ctx.sender ⟨0, 0⟩)
          ctx.sender ⟨0, 0⟩ = mapInsert s.claim_map ctx.sender ⟨0, 0⟩ :=
        mapInsert_self hgot
      refine ⟨?_, ?_, rfl, rfl, rfl, rfl, rfl, rfl, rfl, rfl, rfl, rfl,
        [{ callback := none, calls := [] }], ?_, ?_⟩
      · unfold getClaim
        show (mapGet (mapInsert s.claim_map ctx.sender ⟨0, 0⟩)
          ctx.sender).getD ⟨0, 0⟩ = ⟨0, 0⟩
        rw [hgot]
        rfl
      · intro x hx
        show mapGet (mapInsert s.claim_map ctx.sender ⟨0, 0⟩) x =
          mapGet s.claim_map x
        exact mapGet_mapInsert_ne _ _ _ _ hx
      · unfold claim
        dsimp only
        rw [hgot]
        dsimp only
        rw [hins]
        rfl
      · intro eg heg
        rw [List.mem_singleton] at heg
        subst heg
        rfl

/-- Witness for C7: `addrA` claims a 60-bidding-token refund. -/
theorem claim_action_spec_witness :
    claim (ctxAt addrA 50) { baseState with claim_map := [(addrA, ⟨60, 0⟩)] } =
      some ({ baseState with claim_map := [(addrA, ⟨0, 0⟩)] },
        [{ callback := none,
           calls := [{ dest := tokenBid,
                       shortname := token_contract_transfer,
                       args := [RpcArg.addr addrA, RpcArg.amt 60] }] }]) := by
  have h := (claim_action_spec (ctxAt addrA 50)
    { baseState with claim_map := [(addrA, ⟨60, 0⟩)] }).2.1 ⟨60, 0⟩ (by decide)
  rw [h]
  decide

/-- C8 (amended): starting from a freshly started auction (status
Bidding, no bidding tokens in the ledger), over every sequence of
confirmed bids, claims, and settlement attempts, the total of bidding
tokens credited into the claim ledger (its current bidding-token sum
plus everything withdrawn through `claim`) equals the total of
bidding-token amounts of all non-winning or superseded bids, plus — once
the auction is settled — the final highest bid amount, which `execute`
credits to the owner (or `cancel` refunds to the bidder): no
bidding-token amount is created or destroyed. -/
theorem bidding_tokens_conserved :
    ∀ (s0 : AuctionContractState) (tr : List Invocation) (acc : TraceAcc),
      s0.status = BIDDING → sumBidding s0.claim_map = 0 →
      run_trace ⟨s0, 0, 0⟩ tr = some acc →
      sumBidding acc.st.claim_map + acc.withdrawn =
        acc.refunded + settledAmount acc.st := by
  intro s0 tr acc hstat hsum h
  refine run_trace_preserves h ?_
  show sumBidding s0.claim_map + 0 = 0 + settledAmount s0
  rw [hsum, settledAmount_BIDDING hstat]

/-- Witness for C8 (amended) on the demonstration run: the 60 credited
to the owner is balanced by the settled highest bid. -/
theorem bidding_tokens_conserved_witness :
    sumBidding demoFinal.claim_map + 0 = 0 + settledAmount demoFinal :=
  bidding_tokens_conserved baseState demoTrace ⟨demoFinal, 0, 0⟩ rfl rfl
    (by decide)

/-- Counterexample for C8 as stated: on the demonstration run the total
of bidding tokens credited into the ledger is 60 (the winning bid,
credited to the owner by `execute`) while the total of bidding-token
amounts of non-winning or superseded bids is 0 — the two totals are not
equal once the auction is settled. -/
theorem conservation_exact_cex :
    (run_trace ⟨baseState, 0, 0⟩ demoTrace).map
        (fun acc => (sumBidding acc.st.claim_map + acc.withdrawn,
          acc.refunded)) =
      some (60, 0) ∧
    (run_trace ⟨baseState, 0, 0⟩ demoTrace).map
        (fun acc => decide (sumBidding acc.st.claim_map + acc.withdrawn =
          acc.refunded)) =
      some false := by
  exact ⟨by decide, by decide⟩

end Auction
